import Mathlib

/-!
Verification of the FlagScale launcher core (`flagscale/launcher/runner.py`).

The Python source is shallowly embedded below: pure functions become Lean
functions, Python strings are modelled as `String` (inspected through
`String.toList`), Python `None`-able arguments become `Option`, raised
exceptions become `Except`/`Option` error results, and ambient effects
(current timestamp, `os.path.abspath`, the result of a spawned child
process) become explicit parameters.
-/

/- ## Hostfile parsing (`parse_hostfile`) -/

/-- Python `\s` character class (whitespace as used by `str.strip` and the
hostfile regex): space, tab, newline, carriage return, vertical tab, form feed. -/
def isPySpace (c : Char) : Bool :=
  c == ' ' || c == '\t' || c == '\n' || c == '\r' || c == Char.ofNat 11 || c == Char.ofNat 12

/-- Python `str.strip()`: drop whitespace on both ends. -/
def pyStrip (l : List Char) : List Char :=
  ((l.dropWhile isPySpace).reverse.dropWhile isPySpace).reverse

/-- Numeric value of a digit run, as computed by Python `int` on a decimal
numeral (leading zeros allowed). -/
def natOfDigits (l : List Char) : Nat :=
  l.foldl (fun n c => n * 10 + (c.toNat - 48)) 0

/-- Match a literal character sequence at the front of the input and return
the remainder (a regex literal such as `slots=`). -/
def stripLit : List Char → List Char → Option (List Char)
  | [], cs => some cs
  | _ :: _, [] => none
  | l :: ls, c :: cs => if c = l then stripLit ls cs else none

/-- The optional regex group `(?:\s+type=(\S+))?` of the hostfile pattern,
applied to the text following the slots digits: it participates only when
one-or-more whitespace, the literal `type=`, and a nonempty run of
non-whitespace follow; otherwise the group is `None` and any trailing text
is left unmatched (the pattern has no `$` anchor). -/
def optTypeGroup (rest : List Char) : Option (List Char) :=
  let ws := rest.takeWhile isPySpace
  let r2 := rest.dropWhile isPySpace
  if ws.isEmpty then none
  else
    match stripLit (("type=").toList) r2 with
    | none => none
    | some r3 =>
      let t := r3.takeWhile (fun c => !(isPySpace c))
      if t.isEmpty then none else some t

/-- `pattern.search(line)` for `^(\S+)\s+slots=(\d+)(?:\s+type=(\S+))?`:
group 1 (host), the numeric value of group 2 (slots), and group 3 (type).
`^` with `re.search` and no MULTILINE anchors at the string start, and the
pattern is unanchored at the right, so a match consumes only a prefix. -/
def matchLine (cs : List Char) : Option (String × Nat × Option String) :=
  let host := cs.takeWhile (fun c => !(isPySpace c))
  let r1 := cs.dropWhile (fun c => !(isPySpace c))
  let ws := r1.takeWhile isPySpace
  let r2 := r1.dropWhile isPySpace
  if host.isEmpty then none
  else if ws.isEmpty then none
  else
    match stripLit (("slots=").toList) r2 with
    | none => none
    | some r3 =>
      let ds := r3.takeWhile Char.isDigit
      let r4 := r3.dropWhile Char.isDigit
      if ds.isEmpty then none
      else some (String.mk host, natOfDigits ds, (optTypeGroup r4).map String.mk)

/-- One entry of the ordered resource table built by `parse_hostfile`
(`resources[host] = {"slots": num_slots, "type": machine_type}`). -/
structure HostEntry where
  host : String
  slots : Nat
  mtype : Option String
deriving DecidableEq

/-- The three fatal outcomes of `log_and_raise_error` in `parse_hostfile`. -/
inductive ParseError where
  | invalidEntry (line : String)
  | duplicateHost (host : String)
  | emptyHostfile
deriving DecidableEq

/-- A stripped line is processed (neither a comment nor empty): the loop
`continue`s when `line.startswith("#") or line == ""`. -/
def isEffective (s : List Char) : Bool :=
  match s with
  | [] => false
  | c :: _ => c ≠ '#'

/-- The loop body of `parse_hostfile` over the file's lines, carrying the
ordered table built so far.  A matching line whose host is already present
raises `duplicateHost`; a non-matching effective line raises
`invalidEntry`. -/
def parseLines : List String → List HostEntry → Except ParseError (List HostEntry)
  | [], acc => .ok acc
  | l :: rest, acc =>
    let s := pyStrip l.toList
    if isEffective s then
      match matchLine s with
      | some (h, n, t) =>
        if acc.any (fun e => e.host = h) then .error (.duplicateHost h)
        else parseLines rest (acc ++ [⟨h, n, t⟩])
      | none => .error (.invalidEntry (String.mk s))
    else parseLines rest acc

/-- `parse_hostfile(hostfile_path)`: `none` input models a path that is
absent or not a regular file (the function returns `None`); otherwise the
file's lines are parsed all-or-nothing, and a table with zero entries is
the `emptyHostfile` error. -/
def parse_hostfile (contents : Option (List String)) : Except ParseError (Option (List HostEntry)) :=
  match contents with
  | none => .ok none
  | some lines =>
    match parseLines lines [] with
    | .error e => .error e
    | .ok tbl => if tbl.length = 0 then .error .emptyHostfile else .ok (some tbl)

/-- The stripped effective (non-blank, non-comment) lines of a hostfile, in
file order. -/
def effList (lines : List String) : List (List Char) :=
  (lines.map (fun l => pyStrip l.toList)).filter isEffective

/-- The table entry recorded for a successful line match. -/
def entryOf (r : String × Nat × Option String) : HostEntry :=
  ⟨r.1, r.2.1, r.2.2⟩

/-- The hosts captured by the effective lines that match the entry pattern,
in file order. -/
def hostsOf (lines : List String) : List String :=
  (effList lines).filterMap (fun s => (matchLine s).map (fun r => r.1))

/-- Whether an `Except` result is an error. -/
def isErr : Except ParseError (Option (List HostEntry)) → Bool
  | .error _ => true
  | .ok _ => false

/- ## Resource negotiation (`_get_nnodes`, `_get_nproc_per_node`) -/

/-- A Python value that is either an `int` or a `str`, the two types the
negotiation arguments take in the source. -/
inductive PyVal where
  | int (n : Nat)
  | str (s : String)
deriving DecidableEq

/-- Python `int(s)` on a decimal numeral string: the digits' value, or an
exception (`none`) when the string is not a nonempty digit run.  (Python
also tolerates surrounding whitespace and a sign, which never occur in the
negotiation inputs.) -/
def pyIntStr (s : String) : Option Nat :=
  let cs := s.toList
  if cs.isEmpty then none
  else if cs.all Char.isDigit then some (natOfDigits cs) else none

/-- Python `int(v)`: identity on ints, numeral parsing on strings. -/
def pyInt : PyVal → Option Nat
  | .int n => some n
  | .str s => pyIntStr s

/-- Python `str.split(sep)` for a single-character separator. -/
def splitChar (sep : Char) : List Char → List (List Char)
  | [] => [[]]
  | c :: rest =>
    if c = sep then [] :: splitChar sep rest
    else
      match splitChar sep rest with
      | [] => [[c]]
      | t :: ts => (c :: t) :: ts

/-- The elastic-range handling applied to `nnodes_from_args`:
`if isinstance(v, str) and ":" in v: v, _ = v.split(":")` — a string
containing a colon is replaced by the part before the first colon, and the
two-target unpacking raises (`none`) unless the split has exactly two
parts. -/
def resolveElastic (v : PyVal) : Option PyVal :=
  match v with
  | .int n => some (.int n)
  | .str s =>
    if s.toList.contains ':' then
      match splitChar ':' s.toList with
      | [a, _] => some (.str (String.mk a))
      | _ => none
    else some (.str s)

/-- `_get_nnodes(nnodes_from_hostfile, nnodes_from_args)`.  `none` result
models a raised exception: the leading `assert` when both inputs are
absent, or an `int()` failure. -/
def get_nnodes (fromHostfile : Option Nat) (fromArgs : Option PyVal) : Option Nat :=
  match fromHostfile, fromArgs with
  | none, none => none
  | some h, some a =>
    match resolveElastic a with
    | none => none
    | some a2 =>
      match pyInt a2 with
      | none => none
      | some n => some (min h n)
  | some h, none => some h
  | none, some a =>
    match resolveElastic a with
    | none => none
    | some a2 => pyInt a2

/-- Python truthiness of the optional `num_visible_devices` value
(`if num_visible_devices:`): present and nonzero. -/
def truthyNat : Option Nat → Bool
  | none => false
  | some k => k ≠ 0

/-- `_get_nproc_per_node(nproc_from_hostfile, nproc_from_args,
num_visible_devices)`.  The result is a `PyVal` because the branch with
only `nproc_from_args` present and no truthy device count returns the
argument unchanged, without `int()`. -/
def get_nproc_per_node (fromHostfile : Option Nat) (fromArgs : Option PyVal)
    (numVisible : Option Nat) : Option PyVal :=
  match fromHostfile, fromArgs with
  | some h, some a =>
    match pyInt a with
    | none => none
    | some n =>
      let nproc := min h n
      if truthyNat numVisible then some (.int (min nproc (numVisible.getD 0)))
      else some (.int nproc)
  | some h, none =>
    if truthyNat numVisible then some (.int (min h (numVisible.getD 0)))
    else some (.int h)
  | none, some a =>
    if truthyNat numVisible then
      match pyInt a with
      | none => none
      | some n => some (.int (min n (numVisible.getD 0)))
    else some a
  | none, none =>
    if truthyNat numVisible then some (.int (numVisible.getD 0))
    else some (.int 1)

/-- Whether a `PyVal` is an integer value. -/
def PyVal.isInt : PyVal → Bool
  | .int _ => true
  | .str _ => false

/-- Modelled from the spec: the negotiation rule of `resolve_nproc_per_node`
as §4.2 states it — the minimum of the available hostfile and override
sources, then capped by the visible-device count when that is known; when
neither source is given, the visible-device count if known, else 1. -/
def specNproc (fromHostfile fromOverride visible : Option Nat) : Nat :=
  match fromHostfile, fromOverride with
  | none, none => visible.getD 1
  | some h, none =>
    match visible with
    | some k => min h k
    | none => h
  | none, some o =>
    match visible with
    | some k => min o k
    | none => o
  | some h, some o =>
    match visible with
    | some k => min (min h o) k
    | none => min h o

/- ## The dispatch loop of `SSHRunner.run` -/

/-- The body of `for node_rank, (host, _) in enumerate(self.resources.items())`
in `SSHRunner.run`: `if node_rank >= nnodes: break` and otherwise the host
is dispatched via `self._run_each(host, ..., node_rank, ...)`.  The result
collects the dispatched `(node_rank, host)` pairs in dispatch order. -/
def dispatchLoop : List String → Nat → Nat → List (Nat × String)
  | [], _, _ => []
  | h :: rest, rank, nnodes =>
    if rank ≥ nnodes then []
    else (rank, h) :: dispatchLoop rest (rank + 1) nnodes

/-- The dispatch sequence of `SSHRunner.run` over the resource table's hosts
(hostfile line order) with negotiated node count `nnodes`. -/
def runDispatch (hosts : List String) (nnodes : Nat) : List (Nat × String) :=
  dispatchLoop hosts 0 nnodes

/- ## Launch-command synthesis (`_get_runner_cmd`) -/

/-- A value stored in the runner section of the configuration: the types
that occur there (booleans, ints, strings). -/
inductive ArgVal where
  | bool (b : Bool)
  | int (n : Nat)
  | str (s : String)
deriving DecidableEq

/-- Python `f"{value}"` on a configuration value. -/
def ArgVal.format : ArgVal → String
  | .bool b => if b then ("True") else ("False")
  | .int n => toString n
  | .str s => s

/-- Python truthiness of an `ArgVal`. -/
def truthyArg : ArgVal → Bool
  | .bool b => b
  | .int n => n ≠ 0
  | .str s => s ≠ ""

/-- Truthiness of `runner_config.get(key, False)`: false when the key is
absent. -/
def truthyOpt : Option ArgVal → Bool
  | none => false
  | some v => truthyArg v

/-- `d.get(key)` on a configuration mapping modelled as an ordered
association list (OmegaConf dict order = insertion order). -/
def dictGet (d : List (String × ArgVal)) (k : String) : Option ArgVal :=
  (d.find? (fun p => p.1 = k)).map (fun p => p.2)

/-- `del d[key]` guarded by `if key in d` (deleting an absent key is a
no-op by the guard). -/
def dictDel (d : List (String × ArgVal)) (k : String) : List (String × ArgVal) :=
  d.filter (fun p => p.1 ≠ k)

/-- `d[key] = value`: replace in place when the key is present (position
preserved), append otherwise. -/
def dictSet (d : List (String × ArgVal)) (k : String) (v : ArgVal) : List (String × ArgVal) :=
  if (d.find? (fun p => p.1 = k)).isSome then
    d.map (fun p => if p.1 = k then (k, v) else p)
  else d ++ [(k, v)]

/-- `os.path.join` for the relative path segments joined by the launcher
(none of the appended segments is absolute). -/
def pathJoin (a b : String) : String :=
  a ++ ("/") ++ b

/-- The slice of the configuration read by `_get_runner_cmd`:
`config.experiment.runner` as an ordered mapping, the default log
directory `config.train.system.logging.details_dir`, and
`config.experiment.get("no_shared_fs", False)`. -/
structure CmdConfig where
  runner : List (String × ArgVal)
  detailsDir : String
  expNoSharedFs : Bool

/-- Token emission of `_get_runner_cmd`'s final loop: a boolean value
emits `--key` only when true; any other value emits `--key` followed by
`f"{value}"`. -/
def emitArg : String × ArgVal → List String
  | (k, .bool b) => if b then [("--") ++ k] else []
  | (k, v) => [("--") ++ k, v.format]

/-- The launcher binary chosen by `_get_runner_cmd`:
`runner_config.get("backend", "torchrun")`. -/
def runnerBackend (cfg : CmdConfig) : ArgVal :=
  (dictGet cfg.runner ("backend")).getD (.str ("torchrun"))

/-- The flag mapping assembled by `_get_runner_cmd(host, master_addr,
master_port, nnodes, node_rank, nproc_per_node, config)`.  `abspath`
models `os.path.abspath` and `now` the `datetime.now().strftime(...)`
timestamp.  When `per_node_task` is truthy the function first forces
`nnodes = 1`, `node_rank = 0`, `master_addr = "localhost"`.  The excluded
keys are deleted from a copy of the runner mapping and the derived
options are assigned. -/
def runnerArgs (abspath : String → String) (now : String)
    (host : String) (master_addr : String) (master_port : Nat)
    (nnodes : Nat) (node_rank : Nat) (nproc_per_node : Nat)
    (cfg : CmdConfig) : List (String × ArgVal) :=
  let perNode := truthyOpt (dictGet cfg.runner ("per_node_task"))
  let nnodes := if perNode then 1 else nnodes
  let node_rank := if perNode then 0 else node_rank
  let master_addr := if perNode then ("localhost") else master_addr
  let rdzv_id := (dictGet cfg.runner ("rdzv_id")).getD (.str ("default"))
  let log_dir := abspath ((dictGet cfg.runner ("log_dir")).getD (.str cfg.detailsDir)).format
  let log_dir :=
    if cfg.expNoSharedFs then pathJoin log_dir ("host")
    else pathJoin log_dir (("host_") ++ toString node_rank ++ ("_") ++ host)
  let log_dir := pathJoin log_dir now
  let rdzv_backend := (dictGet cfg.runner ("rdzv_backend")).getD (.str ("c10d"))
  let rdzv_endpoint := (dictGet cfg.runner ("rdzv_endpoint")).getD
    (.str (master_addr ++ (":") ++ toString master_port))
  let redirect := (dictGet cfg.runner ("redirects")).getD (.str ("3"))
  let tee := (dictGet cfg.runner ("tee")).getD (.str ("3"))
  let ra := dictDel (dictDel (dictDel (dictDel (dictDel (dictDel cfg.runner
    ("type")) ("backend")) ("per_node_task")) ("hostfile")) ("master_addr")) ("master_port")
  let ra := dictSet ra ("rdzv_id") rdzv_id
  let ra := dictSet ra ("nnodes") (.int nnodes)
  let ra := dictSet ra ("node_rank") (.int node_rank)
  let ra := dictSet ra ("nproc_per_node") (.int nproc_per_node)
  let ra := dictSet ra ("rdzv_backend") rdzv_backend
  let ra := dictSet ra ("rdzv_endpoint") rdzv_endpoint
  let ra := dictSet ra ("log_dir")
    (.str (if runnerBackend cfg = ArgVal.str ("torchrun") then log_dir
           else pathJoin log_dir rdzv_id.format))
  let ra := dictSet ra ("redirects") redirect
  dictSet ra ("tee") tee

/-- `_get_runner_cmd`: the emitted token sequence — the backend binary
followed by the flags of the assembled mapping, in mapping order. -/
def get_runner_cmd (abspath : String → String) (now : String)
    (host : String) (master_addr : String) (master_port : Nat)
    (nnodes : Nat) (node_rank : Nat) (nproc_per_node : Nat)
    (cfg : CmdConfig) : List String :=
  (runnerBackend cfg).format
    :: (runnerArgs abspath now host master_addr master_port nnodes node_rank
        nproc_per_node cfg).flatMap emitArg

/- ## Stop-script generation (`_generate_stop_script`) -/

/-- A single-quote character, written by code point to stay shy of quoting
pitfalls. -/
def sqChar : Char := Char.ofNat 39

/-- The lines written by `_generate_stop_script` to the stop script, in
write order, split at the `\n` of each `f.write` (the shebang write emits
a line and a blank line, and the final write emits the after-stop hook
line).  Faithful provided neither the pid-file path nor the hook text
embeds a newline — the theorems assume exactly that. -/
def stop_script_lines (pidFile after_stop : String) : List (List Char) :=
  [("#!/bin/bash").toList,
   [],
   ("if [ -f ").toList ++ pidFile.toList ++ (" ]; then").toList,
   ("    pid=$(cat ").toList ++ pidFile.toList ++ (")").toList,
   ("    pkill -P $pid").toList,
   ("else").toList,
   ("    pkill -f ").toList ++ sqChar :: ("torchrun").toList ++ [sqChar],
   ("fi").toList,
   after_stop.toList]

/-- The pid-file path used by both script generators:
`os.path.join(pids_dir, f"host_{node_rank}_{host}.pid")`. -/
def hostPidFile (pids_dir host : String) (node_rank : Nat) : String :=
  pathJoin pids_dir (("host_") ++ toString node_rank ++ ("_") ++ host ++ (".pid"))

/-- `_generate_stop_script(config, host, node_rank)`: the script body, with
the configured after-stop hook (the resolved
`config.experiment.cmds.after_stop`, or `""`). -/
def generate_stop_script (pids_dir host : String) (node_rank : Nat)
    (after_stop : String) : List (List Char) :=
  stop_script_lines (hostPidFile pids_dir host node_rank) after_stop

/-- Interpreter mode for the flat `if/else/fi` shape the generator emits. -/
inductive SMode where
  | top
  | thenB
  | elseB

/-- Recognizes the `if [ -f <path> ]; then` line emitted by the generator. -/
def isIfFileLine (l : List Char) : Bool :=
  (("if [ -f ").toList.isPrefixOf l) && (("]; then").toList.isSuffixOf l)

/-- Drop the indentation of a branch body line. -/
def stripIndent (l : List Char) : List Char :=
  l.dropWhile (fun c => c == ' ')

/-- Executable semantics for the generated stop script: given whether the
pid file exists, the list of commands a shell would run.  Blank lines and
`#` comment lines are no-ops; inside the conditional, only the branch
selected by the file test executes; lines after `fi` execute
unconditionally. -/
def interpStop (pidExists : Bool) : SMode → List (List Char) → List (List Char)
  | _, [] => []
  | .top, l :: rest =>
    if isIfFileLine l then interpStop pidExists .thenB rest
    else if l.isEmpty || l.headD ' ' == '#' then interpStop pidExists .top rest
    else l :: interpStop pidExists .top rest
  | .thenB, l :: rest =>
    if l = ("else").toList then interpStop pidExists .elseB rest
    else if l = ("fi").toList then interpStop pidExists .top rest
    else if pidExists then stripIndent l :: interpStop pidExists .thenB rest
    else interpStop pidExists .thenB rest
  | .elseB, l :: rest =>
    if l = ("fi").toList then interpStop pidExists .top rest
    else if pidExists then interpStop pidExists .elseB rest
    else stripIndent l :: interpStop pidExists .elseB rest

/- ## Local dispatch (`run_local_command`) -/

/-- The observable result of the spawned child process. -/
structure ChildResult where
  returncode : Int
  childOut : String
  childErr : String

/-- How a `run_local_command` call terminates. -/
inductive LocalOutcome where
  | skipped
  | calledProcessError (code : Int)
  | exited (code : Int)
  | ran
deriving DecidableEq

/-- `run_local_command(cmd, dryrun)`, with the child's result as an
explicit parameter.  `subprocess.run` is called with `check=True`, so a
nonzero return code raises `CalledProcessError` inside `subprocess.run`;
only afterwards would the `returncode != 0` test echo the captured output
and call `sys.exit(returncode)` — that branch is therefore unreachable. -/
def run_local_command (_cmd : String) (dryrun : Bool) (child : ChildResult) : LocalOutcome :=
  if dryrun then .skipped
  else if child.returncode ≠ 0 then .calledProcessError child.returncode
  else if child.returncode ≠ 0 then .exited child.returncode
  else .ran


/- ## General helper lemmas -/

theorem takeWhile_all_app (p : Char → Bool) (l1 l2 : List Char)
    (h1 : ∀ a ∈ l1, p a = true) (h2 : l2.head?.all (fun c => !(p c)) = true) :
    (l1 ++ l2).takeWhile p = l1 := by
  induction l1 with
  | nil =>
    cases l2 with
    | nil => rfl
    | cons c cs =>
      simp only [Option.all, List.head?] at h2
      have hc : p c = false := by simpa using h2
      simp [List.takeWhile_cons, hc]
  | cons a as ih =>
    have ha : p a = true := h1 a (by simp)
    simp only [List.cons_append, List.takeWhile_cons, ha, if_true]
    rw [ih (fun x hx => h1 x (by simp [hx]))]

theorem dropWhile_all_app (p : Char → Bool) (l1 l2 : List Char)
    (h1 : ∀ a ∈ l1, p a = true) (h2 : l2.head?.all (fun c => !(p c)) = true) :
    (l1 ++ l2).dropWhile p = l2 := by
  induction l1 with
  | nil =>
    cases l2 with
    | nil => rfl
    | cons c cs =>
      simp only [Option.all, List.head?] at h2
      have hc : p c = false := by simpa using h2
      simp [List.dropWhile_cons, hc]
  | cons a as ih =>
    have ha : p a = true := h1 a (by simp)
    simp only [List.cons_append, List.dropWhile_cons, ha, if_true]
    exact ih (fun x hx => h1 x (by simp [hx]))

theorem stripLit_app (lit rest : List Char) : stripLit lit (lit ++ rest) = some rest := by
  induction lit with
  | nil => rfl
  | cons c cs ih => simp [stripLit, ih]

theorem splitChar_not_mem {sep : Char} {l : List Char} (h : sep ∉ l) :
    splitChar sep l = [l] := by
  induction l with
  | nil => rfl
  | cons c cs ih =>
    have hc : ¬ c = sep := fun hcs => h (by simp [hcs])
    have ht := ih (fun hm => h (by simp [hm]))
    simp [splitChar, hc, ht]

theorem splitChar_app {sep : Char} {l1 l2 : List Char} (h1 : sep ∉ l1) (h2 : sep ∉ l2) :
    splitChar sep (l1 ++ sep :: l2) = [l1, l2] := by
  induction l1 with
  | nil => simp [splitChar, splitChar_not_mem h2]
  | cons c cs ih =>
    have hc : ¬ c = sep := fun hcs => h1 (by simp [hcs])
    have ht := ih (fun hm => h1 (by simp [hm]))
    simp [splitChar, hc, ht]

/- ## C1: the dispatch loop of `run()` -/

theorem dispatchLoop_eq (hosts : List String) :
    ∀ r n, dispatchLoop hosts r n = (hosts.take (n - r)).enumFrom r := by
  induction hosts with
  | nil => intro r n; simp [dispatchLoop]
  | cons h t ih =>
    intro r n
    by_cases hr : r ≥ n
    · have : n - r = 0 := Nat.sub_eq_zero_of_le hr
      simp [dispatchLoop, hr, this]
    · have hlt : r < n := Nat.lt_of_not_le hr
      have hs : n - r = (n - (r + 1)) + 1 := by omega
      simp only [dispatchLoop, if_neg hr, hs, List.take_succ_cons, List.enumFrom]
      rw [ih (r + 1) n]

theorem dispatchLoop_rank_lt (hosts : List String) :
    ∀ r n, (dispatchLoop hosts r n).all (fun p => decide (p.1 < n)) = true := by
  induction hosts with
  | nil => intro r n; rfl
  | cons h t ih =>
    intro r n
    by_cases hr : r ≥ n
    · simp [dispatchLoop, hr]
    · have hlt : r < n := Nat.lt_of_not_le hr
      simp [dispatchLoop, hr, hlt, ih (r + 1) n]

/-- C1: `run()` iterates the resource table's hosts in hostfile line order
and dispatches exactly the hosts at zero-based ranks `0 .. nnodes-1`, in
that order (the dispatch sequence is the enumeration of the first `nnodes`
hosts), never dispatching a rank `≥ nnodes`; concretely, with `nnodes = 2`
over a 5-entry hostfile only the rank-0 and rank-1 hosts are dispatched,
in that order. -/
theorem C1_dispatch_order :
    (∀ hosts nnodes, runDispatch hosts nnodes = (hosts.take nnodes).enum)
    ∧ (∀ hosts nnodes, (runDispatch hosts nnodes).all (fun p => decide (p.1 < nnodes)) = true)
    ∧ runDispatch [("h0"), ("h1"), ("h2"), ("h3"), ("h4")] 2 = [(0, ("h0")), (1, ("h1"))] := by
  refine ⟨fun hosts nnodes => ?_, fun hosts nnodes => dispatchLoop_rank_lt hosts 0 nnodes, by decide⟩
  rw [runDispatch, dispatchLoop_eq hosts 0 nnodes, Nat.sub_zero]
  rfl

/- ## C2: `_get_nnodes` -/

/-- C2: with both inputs present `_get_nnodes` returns
`min(hostfile_count, override_min)`, where an override written as an
elastic range `min:max` contributes only its `min` part; concretely
`(5, "3") = 3`, `(5, "3:8") = 3`, `(None, "4") = 4`, `(5, None) = 5`; and
with both inputs absent the leading assertion fires (no value is
returned). -/
theorem C2_get_nnodes :
    (∀ h n, get_nnodes (some h) (some (.int n)) = some (min h n))
    ∧ (∀ (h : Nat) (ds es : List Char), ds ≠ [] → (∀ c ∈ ds, c.isDigit = true) → ':' ∉ es →
        get_nnodes (some h) (some (.str (String.mk (ds ++ ':' :: es))))
          = some (min h (natOfDigits ds)))
    ∧ get_nnodes (some 5) (some (.str ("3"))) = some 3
    ∧ get_nnodes (some 5) (some (.str ("3:8"))) = some 3
    ∧ get_nnodes none (some (.str ("4"))) = some 4
    ∧ get_nnodes (some 5) none = some 5
    ∧ get_nnodes none none = none := by
  refine ⟨fun h n => rfl, ?_, rfl, rfl, rfl, rfl, rfl⟩
  intro h ds es hne hdig hes
  have hds : ':' ∉ ds := fun hm => absurd (hdig _ hm) (by decide)
  have hmem : ':' ∈ ds ++ ':' :: es := by simp
  have hcont : (String.mk (ds ++ ':' :: es)).toList.contains ':' = true := by
    show (ds ++ ':' :: es).contains ':' = true
    simp [List.contains, List.elem_eq_mem, hmem]
  have hsplit : splitChar ':' (String.mk (ds ++ ':' :: es)).toList = [ds, es] :=
    splitChar_app hds hes
  have hemp : (String.mk ds).toList.isEmpty = false := by
    show ds.isEmpty = false
    cases ds with
    | nil => exact absurd rfl hne
    | cons c cs => rfl
  have hall : (String.mk ds).toList.all Char.isDigit = true := by
    show ds.all Char.isDigit = true
    exact List.all_eq_true.mpr hdig
  simp only [get_nnodes, resolveElastic, hcont, if_true, hsplit, pyInt, pyIntStr, hemp, hall]
  rfl

theorem C2_get_nnodes_witness :
    get_nnodes (some 5) (some (.str (String.mk (['3'] ++ ':' :: ['8']))))
      = some (min 5 (natOfDigits ['3'])) :=
  C2_get_nnodes.2.1 5 ['3'] ['8'] (by decide) (by decide) (by decide)

/- ## C3: `_get_nproc_per_node`, negotiated rule -/

/-- C3: `_get_nproc_per_node` takes the minimum of the available
hostfile-slots and override sources, then caps the result by the visible
device count when that is known (truthy), as `specNproc` states it; and
the three concrete examples of the spec hold.  (`v ≠ some 0` reflects
that the device count, when derived from a nonempty comma-separated
environment value, is at least 1.) -/
theorem C3_nproc_rule :
    (∀ h o v : Option Nat, v ≠ some 0 →
        get_nproc_per_node h (o.map PyVal.int) v = some (.int (specNproc h o v)))
    ∧ get_nproc_per_node (some 8) (some (.str ("4"))) (some 2) = some (.int 2)
    ∧ get_nproc_per_node (some 8) none none = some (.int 8)
    ∧ get_nproc_per_node none none none = some (.int 1) := by
  refine ⟨?_, rfl, rfl, rfl⟩
  intro h o v hv
  cases h <;> cases o <;> cases v <;>
    simp_all [get_nproc_per_node, specNproc, truthyNat, pyInt, Option.getD, Option.map]

theorem C3_nproc_rule_witness :
    get_nproc_per_node (some 3) ((some 5).map PyVal.int) (some 2)
      = some (.int (specNproc (some 3) (some 5) (some 2))) :=
  C3_nproc_rule.1 (some 3) (some 5) (some 2) (by decide)

/- ## C7: `run_local_command` on a failing child -/

/-- C7 evidence: with `check=True`, a nonzero child exit code raises
`CalledProcessError` inside `subprocess.run`; the function does not reach
the branch that would echo the captured output and exit with the child's
code. -/
theorem C7_local_failure_raises :
    run_local_command ("exit 3") false ⟨3, (""), ("")⟩ = .calledProcessError 3
    ∧ run_local_command ("exit 3") false ⟨3, (""), ("")⟩ ≠ .exited 3 :=
  ⟨rfl, by decide⟩

/- ## C8: string override without device cap stays a string -/

/-- C8 evidence: in the branch where only the override is present and no
device-visibility cap is known, `_get_nproc_per_node` returns the
override value unchanged — a string override yields a string, not an
integer. -/
theorem C8_string_override_not_int :
    get_nproc_per_node none (some (.str ("4"))) none = some (.str ("4"))
    ∧ PyVal.isInt (.str ("4")) = false :=
  ⟨rfl, rfl⟩

/- ## Parser characterization lemmas -/

theorem effList_cons (l : String) (rest : List String) :
    effList (l :: rest)
      = if isEffective (pyStrip l.toList) then pyStrip l.toList :: effList rest
        else effList rest := by
  simp [effList, List.filter_cons]

theorem parseLines_ok : ∀ (lines : List String) (acc tbl : List HostEntry),
    parseLines lines acc = .ok tbl →
    (∀ s ∈ effList lines, (matchLine s).isSome = true)
    ∧ tbl = acc ++ (effList lines).filterMap (fun s => (matchLine s).map entryOf) := by
  intro lines
  induction lines with
  | nil =>
    intro acc tbl h
    simp only [parseLines] at h
    cases h
    simp [effList]
  | cons l rest ih =>
    intro acc tbl h
    rw [effList_cons]
    simp only [parseLines] at h
    split at h
    case isTrue he =>
      rw [if_pos he]
      split at h
      case h_1 h0 n t hm =>
        split at h
        case isTrue hd => exact absurd h (by simp)
        case isFalse hd =>
          obtain ⟨ih1, ih2⟩ := ih _ _ h
          refine ⟨?_, ?_⟩
          · intro s hs
            rcases List.mem_cons.mp hs with hs1 | hs2
            · rw [hs1, hm]; rfl
            · exact ih1 s hs2
          · rw [ih2]
            simp only [List.filterMap_cons]
            rw [hm, List.append_assoc]
            rfl
      case h_2 hm => exact absurd h (by simp)
    case isFalse he =>
      rw [if_neg he]
      exact ih _ _ h

theorem parseLines_err_of_bad (lines : List String) (acc : List HostEntry)
    (h : ∃ s ∈ effList lines, matchLine s = none) :
    ∃ e, parseLines lines acc = .error e := by
  cases hres : parseLines lines acc with
  | error e => exact ⟨e, rfl⟩
  | ok tbl =>
    obtain ⟨s, hs, hm⟩ := h
    have hsome := (parseLines_ok lines acc tbl hres).1 s hs
    rw [hm] at hsome
    exact absurd hsome (by simp)

theorem map_host_filterMap (L : List (List Char)) :
    ((L.filterMap (fun s => (matchLine s).map entryOf)).map HostEntry.host)
      = L.filterMap (fun s => (matchLine s).map (fun r => r.1)) := by
  induction L with
  | nil => rfl
  | cons s L ih =>
    cases hm : matchLine s <;> simp [List.filterMap_cons, hm, entryOf, ih]

theorem parseLines_ok_nodup : ∀ (lines : List String) (acc tbl : List HostEntry),
    parseLines lines acc = .ok tbl → (acc.map HostEntry.host).Nodup →
    (tbl.map HostEntry.host).Nodup := by
  intro lines
  induction lines with
  | nil =>
    intro acc tbl h hnd
    simp only [parseLines] at h
    cases h
    exact hnd
  | cons l rest ih =>
    intro acc tbl h hnd
    simp only [parseLines] at h
    split at h
    case isTrue he =>
      split at h
      case h_1 h0 n t hm =>
        split at h
        case isTrue hd => exact absurd h (by simp)
        case isFalse hd =>
          apply ih _ _ h
          have hnotin : h0 ∉ acc.map HostEntry.host := by
            intro hmem
            obtain ⟨e0, he0, heq⟩ := List.mem_map.mp hmem
            exact hd (List.any_eq_true.mpr ⟨e0, he0, by simp [heq]⟩)
          rw [List.map_append]
          simp [List.nodup_append, hnd, hnotin]
      case h_2 hm => exact absurd h (by simp)
    case isFalse he => exact ih _ _ h hnd

theorem parse_err_of_dup (lines : List String)
    (hdup : ¬ ((hostsOf lines).Nodup)) :
    ∃ e, parseLines lines [] = .error e := by
  cases hres : parseLines lines [] with
  | error e => exact ⟨e, rfl⟩
  | ok tbl =>
    exfalso
    apply hdup
    have h2 := (parseLines_ok lines [] tbl hres).2
    have h3 := parseLines_ok_nodup lines [] tbl hres (by simp)
    rw [h2] at h3
    simpa [hostsOf, map_host_filterMap] using h3

theorem parseLines_all_skip : ∀ (lines : List String) (acc : List HostEntry),
    effList lines = [] → parseLines lines acc = .ok acc := by
  intro lines
  induction lines with
  | nil => intro acc _; rfl
  | cons l rest ih =>
    intro acc hempty
    rw [effList_cons] at hempty
    by_cases he : isEffective (pyStrip l.toList)
    · rw [if_pos he] at hempty; exact absurd hempty (by simp)
    · rw [if_neg he] at hempty
      simp only [parseLines]
      rw [if_neg he]
      exact ih acc hempty

/- ## C4: parse outcomes -/

/-- C4: `parse_hostfile` returns `None` (not an error) when the path is
absent or not a regular file; otherwise parsing is all-or-nothing: a
non-blank non-comment line that does not match the entry pattern yields
an error, a duplicated host yields an error, and a file with zero entries
(all lines blank or comments) yields the empty-hostfile error — in all
three cases no resource table is returned. -/
theorem C4_parse_outcomes :
    parse_hostfile none = .ok none
    ∧ (∀ lines, (∃ s ∈ effList lines, matchLine s = none) →
        isErr (parse_hostfile (some lines)) = true)
    ∧ (∀ lines, ¬ ((hostsOf lines).Nodup) → isErr (parse_hostfile (some lines)) = true)
    ∧ (∀ lines, effList lines = [] → parse_hostfile (some lines) = .error .emptyHostfile) := by
  refine ⟨rfl, ?_, ?_, ?_⟩
  · intro lines hex
    obtain ⟨e, hee⟩ := parseLines_err_of_bad lines [] hex
    simp only [parse_hostfile]
    rw [hee]
    rfl
  · intro lines hdup
    obtain ⟨e, hee⟩ := parse_err_of_dup lines hdup
    simp only [parse_hostfile]
    rw [hee]
    rfl
  · intro lines hempty
    simp only [parse_hostfile]
    rw [parseLines_all_skip lines [] hempty]
    rfl

theorem C4_parse_outcomes_witness :
    isErr (parse_hostfile (some [("worker0 slotz=8")])) = true
    ∧ isErr (parse_hostfile (some [("a slots=1"), ("a slots=2")])) = true
    ∧ parse_hostfile (some [("# only")]) = .error .emptyHostfile :=
  ⟨C4_parse_outcomes.2.1 _ (by decide),
   C4_parse_outcomes.2.2.1 _ (by decide),
   C4_parse_outcomes.2.2.2 _ (by decide)⟩

/- ## C9: slots of accepted entries -/

/-- C9 counterexample: a hostfile line with `slots=0` is accepted by the
parser (the regex digit run `\d+` matches `0`), so a successful parse can
record an entry with `slots = 0`, refuting strict positivity of slots. -/
theorem C9_counterexample :
    parse_hostfile (some [("worker0 slots=0")]) = .ok (some [⟨("worker0"), 0, none⟩])
    ∧ ¬ (∀ e ∈ [HostEntry.mk ("worker0") 0 none], 0 < e.slots) :=
  ⟨rfl, by decide⟩

/-- C9 amended: every entry produced by a successful parse records exactly
the host, slots and optional type matched from its effective hostfile
line, in line order; the slots value is the digit run's value and is only
guaranteed nonnegative (a `slots=0` line is accepted, so strict
positivity does not hold). -/
theorem C9_amended (lines : List String) (tbl : List HostEntry)
    (h : parse_hostfile (some lines) = .ok (some tbl)) :
    tbl = (effList lines).filterMap (fun s => (matchLine s).map entryOf) := by
  simp only [parse_hostfile] at h
  split at h
  case h_1 e hres => exact absurd h (by simp)
  case h_2 tbl0 hres =>
    split at h
    case isTrue hlen => exact absurd h (by simp)
    case isFalse hlen =>
      have htbl : tbl0 = tbl := by simpa using h
      have hch := (parseLines_ok lines [] tbl0 hres).2
      rw [← htbl]
      simpa using hch

theorem C9_amended_witness :
    [HostEntry.mk ("a") 3 none]
      = (effList [("a slots=3")]).filterMap (fun s => (matchLine s).map entryOf) :=
  C9_amended [("a slots=3")] [HostEntry.mk ("a") 3 none] rfl

/- ## C10: prefix-based line matching -/

/-- C10: hostfile line matching is prefix-based: a line that begins with a
valid `<host> slots=<n>` prefix followed by trailing text that does not
form a `type=<token>` field is accepted, recording the host and parsed
slots with no type, the trailing text silently ignored; in particular
`worker0 slots=8 extra junk` parses to an entry `worker0/8/no type`. -/
theorem C10_prefix_based :
    (∀ (hostCs ds rest : List Char),
      hostCs.isEmpty = false →
      hostCs.all (fun c => !(isPySpace c)) = true →
      ds.isEmpty = false →
      ds.all Char.isDigit = true →
      rest.head?.all (fun c => !(c.isDigit)) = true →
      optTypeGroup rest = none →
      matchLine (hostCs ++ ' ' :: (("slots=").toList ++ (ds ++ rest)))
        = some (String.mk hostCs, natOfDigits ds, none))
    ∧ parse_hostfile (some [("worker0 slots=8 extra junk")])
        = .ok (some [⟨("worker0"), 8, none⟩]) := by
  refine ⟨?_, rfl⟩
  intro hostCs ds rest hne hns hdne hdig hhead htype
  have hA : (hostCs ++ ' ' :: (("slots=").toList ++ (ds ++ rest))).takeWhile
      (fun c => !(isPySpace c)) = hostCs :=
    takeWhile_all_app _ _ _ (List.all_eq_true.mp hns) (by rfl)
  have hB : (hostCs ++ ' ' :: (("slots=").toList ++ (ds ++ rest))).dropWhile
      (fun c => !(isPySpace c)) = ' ' :: (("slots=").toList ++ (ds ++ rest)) :=
    dropWhile_all_app _ _ _ (List.all_eq_true.mp hns) (by rfl)
  have hX1 : (("slots=").toList ++ (ds ++ rest)).takeWhile isPySpace = [] := by
    have := takeWhile_all_app isPySpace [] (("slots=").toList ++ (ds ++ rest))
      (by simp) (by rfl)
    simpa using this
  have hX2 : (("slots=").toList ++ (ds ++ rest)).dropWhile isPySpace
      = ("slots=").toList ++ (ds ++ rest) := by
    have := dropWhile_all_app isPySpace [] (("slots=").toList ++ (ds ++ rest))
      (by simp) (by rfl)
    simpa using this
  have hC : (' ' :: (("slots=").toList ++ (ds ++ rest))).takeWhile isPySpace = [' '] := by
    rw [List.takeWhile_cons]
    simp [isPySpace, hX1]
  have hD : (' ' :: (("slots=").toList ++ (ds ++ rest))).dropWhile isPySpace
      = ("slots=").toList ++ (ds ++ rest) := by
    rw [List.dropWhile_cons]
    simp [isPySpace, hX2]
  have hE : stripLit (("slots=").toList) (("slots=").toList ++ (ds ++ rest))
      = some (ds ++ rest) := stripLit_app _ _
  have hF : (ds ++ rest).takeWhile Char.isDigit = ds :=
    takeWhile_all_app _ _ _ (List.all_eq_true.mp hdig) hhead
  have hG : (ds ++ rest).dropWhile Char.isDigit = rest :=
    dropWhile_all_app _ _ _ (List.all_eq_true.mp hdig) hhead
  simp only [matchLine, hA, hB, hC, hD, hE, hF, hG, hne, hdne, htype]
  simp

theorem C10_prefix_based_witness :
    matchLine ((("worker0").toList) ++ ' ' :: (("slots=").toList ++ ((['8']) ++ (" extra junk").toList)))
      = some (String.mk (("worker0").toList), natOfDigits ['8'], none) :=
  C10_prefix_based.1 (("worker0").toList) ['8'] ((" extra junk").toList)
    (by decide) (by decide) (by decide) (by decide) (by decide) (by decide)

/- ## C5: per-node forcing in `_get_runner_cmd` -/

theorem dictSet_mem (d : List (String × ArgVal)) (k : String) (v : ArgVal) :
    (k, v) ∈ dictSet d k v := by
  unfold dictSet
  split
  case isTrue hf =>
    obtain ⟨p, hp⟩ := Option.isSome_iff_exists.mp hf
    have hpd : p ∈ d := List.mem_of_find?_eq_some hp
    have hpk : p.1 = k := by simpa using List.find?_some hp
    refine List.mem_map.mpr ⟨p, hpd, ?_⟩
    rw [if_pos hpk]
  case isFalse hf =>
    exact List.mem_append_right _ (by simp)

theorem dictSet_mem_preserve (d : List (String × ArgVal)) (k : String) (v : ArgVal)
    (k2 : String) (v2 : ArgVal) (hne : k ≠ k2) (h : (k, v) ∈ d) :
    (k, v) ∈ dictSet d k2 v2 := by
  unfold dictSet
  split
  · refine List.mem_map.mpr ⟨(k, v), h, ?_⟩
    have hne2 : ¬(((k, v) : String × ArgVal).1 = k2) := by simpa using hne
    rw [if_neg hne2]
  · exact List.mem_append_left _ h

theorem flatMap_token_pair (d : List (String × ArgVal)) (k : String) (v : ArgVal)
    (h : (k, v) ∈ d) :
    ∃ l1 l2, d.flatMap emitArg = l1 ++ emitArg (k, v) ++ l2 := by
  obtain ⟨s, t, rfl⟩ := List.append_of_mem h
  exact ⟨s.flatMap emitArg, t.flatMap emitArg,
    by simp [List.flatMap_append, List.flatMap_cons, List.append_assoc]⟩

theorem runnerArgs_mem_nnodes (abspath : String → String) (now host master_addr : String)
    (master_port nnodes node_rank nproc_per_node : Nat) (cfg : CmdConfig)
    (hper : truthyOpt (dictGet cfg.runner ("per_node_task")) = true) :
    (("nnodes"), ArgVal.int 1)
      ∈ runnerArgs abspath now host master_addr master_port nnodes node_rank
          nproc_per_node cfg := by
  unfold runnerArgs
  simp only [hper, eq_self_iff_true, if_true]
  apply dictSet_mem_preserve _ _ _ _ _ (by decide)
  apply dictSet_mem_preserve _ _ _ _ _ (by decide)
  apply dictSet_mem_preserve _ _ _ _ _ (by decide)
  apply dictSet_mem_preserve _ _ _ _ _ (by decide)
  apply dictSet_mem_preserve _ _ _ _ _ (by decide)
  apply dictSet_mem_preserve _ _ _ _ _ (by decide)
  apply dictSet_mem_preserve _ _ _ _ _ (by decide)
  exact dictSet_mem _ _ _

theorem runnerArgs_mem_node_rank (abspath : String → String) (now host master_addr : String)
    (master_port nnodes node_rank nproc_per_node : Nat) (cfg : CmdConfig)
    (hper : truthyOpt (dictGet cfg.runner ("per_node_task")) = true) :
    (("node_rank"), ArgVal.int 0)
      ∈ runnerArgs abspath now host master_addr master_port nnodes node_rank
          nproc_per_node cfg := by
  unfold runnerArgs
  simp only [hper, eq_self_iff_true, if_true]
  apply dictSet_mem_preserve _ _ _ _ _ (by decide)
  apply dictSet_mem_preserve _ _ _ _ _ (by decide)
  apply dictSet_mem_preserve _ _ _ _ _ (by decide)
  apply dictSet_mem_preserve _ _ _ _ _ (by decide)
  apply dictSet_mem_preserve _ _ _ _ _ (by decide)
  apply dictSet_mem_preserve _ _ _ _ _ (by decide)
  exact dictSet_mem _ _ _

theorem runnerArgs_mem_endpoint (abspath : String → String) (now host master_addr : String)
    (master_port nnodes node_rank nproc_per_node : Nat) (cfg : CmdConfig)
    (hper : truthyOpt (dictGet cfg.runner ("per_node_task")) = true)
    (hep : dictGet cfg.runner ("rdzv_endpoint") = none) :
    (("rdzv_endpoint"), ArgVal.str (("localhost") ++ (":") ++ toString master_port))
      ∈ runnerArgs abspath now host master_addr master_port nnodes node_rank
          nproc_per_node cfg := by
  unfold runnerArgs
  simp only [hper, hep, eq_self_iff_true, if_true, Option.getD_none]
  apply dictSet_mem_preserve _ _ _ _ _ (by decide)
  apply dictSet_mem_preserve _ _ _ _ _ (by decide)
  apply dictSet_mem_preserve _ _ _ _ _ (by decide)
  exact dictSet_mem _ _ _

/-- C5 counterexample: a configuration marked per-node that also carries an
explicit `rdzv_endpoint` override emits that override verbatim — no token
of the command is built from `localhost`, although `--nnodes 1` and
`--node_rank 0` are still forced.  This refutes the claim's
endpoint clause as stated. -/
theorem C5_counterexample :
    get_runner_cmd (fun s => s) ("T") ("h") ("m") 29500 5 3 4
        (CmdConfig.mk [(("per_node_task"), ArgVal.bool true),
          (("rdzv_endpoint"), ArgVal.str ("example.com:1234"))] ("/d") false)
      = [("torchrun"), ("--rdzv_endpoint"), ("example.com:1234"), ("--rdzv_id"), ("default"),
         ("--nnodes"), ("1"), ("--node_rank"), ("0"), ("--nproc_per_node"), ("4"),
         ("--rdzv_backend"), ("c10d"), ("--log_dir"), ("/d/host_0_h/T"),
         ("--redirects"), ("3"), ("--tee"), ("3")]
    ∧ (get_runner_cmd (fun s => s) ("T") ("h") ("m") 29500 5 3 4
        (CmdConfig.mk [(("per_node_task"), ArgVal.bool true),
          (("rdzv_endpoint"), ArgVal.str ("example.com:1234"))] ("/d") false)).all
        (fun t => !((("localhost").toList.isPrefixOf t.toList))) = true :=
  ⟨rfl, rfl⟩

/-- C5 amended: when the configuration marks the job as per-node, the
emitted tokens always carry `--nnodes 1` and `--node_rank 0` regardless
of the host, master address/port, node count and rank passed in; and,
unless the configuration explicitly overrides `rdzv_endpoint`, they carry
a rendezvous endpoint built from the forced `localhost` master address. -/
theorem C5_amended (abspath : String → String) (now host master_addr : String)
    (master_port nnodes node_rank nproc_per_node : Nat) (cfg : CmdConfig)
    (hper : truthyOpt (dictGet cfg.runner ("per_node_task")) = true) :
    (∃ l1 l2, get_runner_cmd abspath now host master_addr master_port nnodes node_rank
        nproc_per_node cfg = l1 ++ [("--nnodes"), ("1")] ++ l2)
    ∧ (∃ l1 l2, get_runner_cmd abspath now host master_addr master_port nnodes node_rank
        nproc_per_node cfg = l1 ++ [("--node_rank"), ("0")] ++ l2)
    ∧ (dictGet cfg.runner ("rdzv_endpoint") = none →
       ∃ l1 l2, get_runner_cmd abspath now host master_addr master_port nnodes node_rank
        nproc_per_node cfg
          = l1 ++ [("--rdzv_endpoint"), ("localhost") ++ (":") ++ toString master_port] ++ l2) := by
  refine ⟨?_, ?_, fun hep => ?_⟩
  · obtain ⟨l1, l2, he⟩ := flatMap_token_pair _ _ _
      (runnerArgs_mem_nnodes abspath now host master_addr master_port nnodes node_rank
        nproc_per_node cfg hper)
    refine ⟨(runnerBackend cfg).format :: l1, l2, ?_⟩
    unfold get_runner_cmd
    rw [he]
    rfl
  · obtain ⟨l1, l2, he⟩ := flatMap_token_pair _ _ _
      (runnerArgs_mem_node_rank abspath now host master_addr master_port nnodes node_rank
        nproc_per_node cfg hper)
    refine ⟨(runnerBackend cfg).format :: l1, l2, ?_⟩
    unfold get_runner_cmd
    rw [he]
    rfl
  · obtain ⟨l1, l2, he⟩ := flatMap_token_pair _ _ _
      (runnerArgs_mem_endpoint abspath now host master_addr master_port nnodes node_rank
        nproc_per_node cfg hper hep)
    refine ⟨(runnerBackend cfg).format :: l1, l2, ?_⟩
    unfold get_runner_cmd
    rw [he]
    rfl

theorem C5_amended_witness :
    (∃ l1 l2, get_runner_cmd (fun s => s) ("T") ("h") ("m") 29500 5 3 4
        (CmdConfig.mk [(("per_node_task"), ArgVal.bool true)] ("/d") false)
        = l1 ++ [("--nnodes"), ("1")] ++ l2)
    ∧ (∃ l1 l2, get_runner_cmd (fun s => s) ("T") ("h") ("m") 29500 5 3 4
        (CmdConfig.mk [(("per_node_task"), ArgVal.bool true)] ("/d") false)
        = l1 ++ [("--node_rank"), ("0")] ++ l2)
    ∧ (dictGet (CmdConfig.mk [(("per_node_task"), ArgVal.bool true)] ("/d") false).runner
        ("rdzv_endpoint") = none →
       ∃ l1 l2, get_runner_cmd (fun s => s) ("T") ("h") ("m") 29500 5 3 4
        (CmdConfig.mk [(("per_node_task"), ArgVal.bool true)] ("/d") false)
          = l1 ++ [("--rdzv_endpoint"), ("localhost") ++ (":") ++ toString 29500] ++ l2) :=
  C5_amended (fun s => s) ("T") ("h") ("m") 29500 5 3 4
    (CmdConfig.mk [(("per_node_task"), ArgVal.bool true)] ("/d") false) (by rfl)

/- ## C6: stop-script branch structure -/

theorem ne_of_headD_ne (l1 l2 : List Char) (c : Char)
    (h : l1.headD c ≠ l2.headD c) : l1 ≠ l2 :=
  fun he => h (he ▸ rfl)

theorem isPrefixOf_app (l r : List Char) : l.isPrefixOf (l ++ r) = true := by
  rw [List.isPrefixOf_iff_prefix]
  exact List.prefix_append l r

theorem isSuffixOf_app (s t : List Char) : s.isSuffixOf (t ++ s) = true := by
  rw [List.isSuffixOf_iff_suffix]
  exact List.suffix_append t s

theorem interpStop_top_if (b : Bool) (l : List Char) (rest : List (List Char))
    (h : isIfFileLine l = true) :
    interpStop b .top (l :: rest) = interpStop b .thenB rest := by
  simp [interpStop, h]

theorem interpStop_top_skip (b : Bool) (l : List Char) (rest : List (List Char))
    (h1 : isIfFileLine l = false) (h2 : (l.isEmpty || l.headD ' ' == '#') = true) :
    interpStop b .top (l :: rest) = interpStop b .top rest := by
  simp only [interpStop, h1, h2]
  simp

theorem interpStop_top_exec (b : Bool) (l : List Char) (rest : List (List Char))
    (h1 : isIfFileLine l = false) (h2 : (l.isEmpty || l.headD ' ' == '#') = false) :
    interpStop b .top (l :: rest) = l :: interpStop b .top rest := by
  simp only [interpStop, h1, h2]
  simp

theorem interpStop_then_else (b : Bool) (rest : List (List Char)) :
    interpStop b .thenB ((("else").toList) :: rest) = interpStop b .elseB rest := by
  simp [interpStop]

theorem interpStop_then_exec (l : List Char) (rest : List (List Char))
    (h1 : l ≠ ("else").toList) (h2 : l ≠ ("fi").toList) :
    interpStop true .thenB (l :: rest) = stripIndent l :: interpStop true .thenB rest := by
  simp only [interpStop]
  rw [if_neg h1, if_neg h2]
  simp

theorem interpStop_then_skip (l : List Char) (rest : List (List Char))
    (h1 : l ≠ ("else").toList) (h2 : l ≠ ("fi").toList) :
    interpStop false .thenB (l :: rest) = interpStop false .thenB rest := by
  simp only [interpStop]
  rw [if_neg h1, if_neg h2]
  simp

theorem interpStop_else_fi (b : Bool) (rest : List (List Char)) :
    interpStop b .elseB ((("fi").toList) :: rest) = interpStop b .top rest := by
  simp [interpStop]

theorem interpStop_else_exec (l : List Char) (rest : List (List Char))
    (h2 : l ≠ ("fi").toList) :
    interpStop false .elseB (l :: rest) = stripIndent l :: interpStop false .elseB rest := by
  simp only [interpStop]
  rw [if_neg h2]
  simp

theorem interpStop_else_skip (l : List Char) (rest : List (List Char))
    (h2 : l ≠ ("fi").toList) :
    interpStop true .elseB (l :: rest) = interpStop true .elseB rest := by
  simp only [interpStop]
  rw [if_neg h2]
  simp

/-- C6: for every host, node rank and configured after-stop hook, the
generated stop script has exactly the claimed branch structure: when the
pid file exists the executed commands are the pid-based kill (`pid=$(cat
<pidfile>)`, `pkill -P $pid`) followed by the hook; when it does not
exist, the kill-by-name fallback (`pkill -f 'torchrun'`) followed by the
hook — the hook runs after the kill logic in both branches.  (The
newline-freedom hypotheses keep the line-per-write model faithful; the
hypotheses on the hook text say it is one non-blank, non-comment,
non-conditional command.) -/
theorem C6_stop_script (pids_dir host : String) (node_rank : Nat) (after_stop : String)
    (_hnl1 : pids_dir.toList.contains '\n' = false)
    (_hnl2 : host.toList.contains '\n' = false)
    (_hnl3 : after_stop.toList.contains '\n' = false)
    (hne : after_stop.toList.isEmpty = false)
    (hhash : (after_stop.toList.headD ' ' == '#') = false)
    (hif : isIfFileLine after_stop.toList = false) :
    interpStop true .top (generate_stop_script pids_dir host node_rank after_stop)
      = [("pid=$(cat ").toList ++ (hostPidFile pids_dir host node_rank).toList ++ (")").toList,
         ("pkill -P $pid").toList,
         after_stop.toList]
    ∧ interpStop false .top (generate_stop_script pids_dir host node_rank after_stop)
      = [("pkill -f ").toList ++ sqChar :: ("torchrun").toList ++ [sqChar],
         after_stop.toList] := by
  have hce : (' ' : Char) ≠ 'e' := by decide
  have hcf : (' ' : Char) ≠ 'f' := by decide
  have nPid1 : ("    pid=$(cat ").toList ++ (hostPidFile pids_dir host node_rank).toList
      ++ (")").toList ≠ ("else").toList := ne_of_headD_ne _ _ ' ' hce
  have nPid2 : ("    pid=$(cat ").toList ++ (hostPidFile pids_dir host node_rank).toList
      ++ (")").toList ≠ ("fi").toList := ne_of_headD_ne _ _ ' ' hcf
  have hp2 : ("if [ -f ").toList.isPrefixOf
      ((("if [ -f ").toList ++ (hostPidFile pids_dir host node_rank).toList
        ++ (" ]; then").toList)) = true := by
    rw [List.append_assoc]
    exact isPrefixOf_app _ _
  have hs2 : ("]; then").toList.isSuffixOf
      ((("if [ -f ").toList ++ (hostPidFile pids_dir host node_rank).toList
        ++ (" ]; then").toList)) = true := by
    show ("]; then").toList.isSuffixOf
      ((("if [ -f ").toList ++ (hostPidFile pids_dir host node_rank).toList)
        ++ ((" ").toList ++ ("]; then").toList)) = true
    rw [← List.append_assoc]
    exact isSuffixOf_app _ _
  have hIf : isIfFileLine (("if [ -f ").toList ++ (hostPidFile pids_dir host node_rank).toList
      ++ (" ]; then").toList) = true := by
    unfold isIfFileLine
    rw [hp2, hs2]
    rfl
  have hskip : (after_stop.toList.isEmpty || after_stop.toList.headD ' ' == '#') = false := by
    rw [hne, hhash]
    rfl
  refine ⟨?_, ?_⟩
  · simp only [generate_stop_script, stop_script_lines]
    rw [interpStop_top_skip _ _ _ (by decide) (by decide),
        interpStop_top_skip _ _ _ (by decide) (by decide),
        interpStop_top_if _ _ _ hIf,
        interpStop_then_exec _ _ nPid1 nPid2,
        interpStop_then_exec _ _ (by decide) (by decide),
        interpStop_then_else,
        interpStop_else_skip _ _ (by decide),
        interpStop_else_fi,
        interpStop_top_exec _ _ _ hif hskip]
    rfl
  · simp only [generate_stop_script, stop_script_lines]
    rw [interpStop_top_skip _ _ _ (by decide) (by decide),
        interpStop_top_skip _ _ _ (by decide) (by decide),
        interpStop_top_if _ _ _ hIf,
        interpStop_then_skip _ _ nPid1 nPid2,
        interpStop_then_skip _ _ (by decide) (by decide),
        interpStop_then_else,
        interpStop_else_exec _ _ (by decide),
        interpStop_else_fi,
        interpStop_top_exec _ _ _ hif hskip]
    rfl

theorem C6_stop_script_witness :
    interpStop true .top (generate_stop_script ("/p") ("hostA") 3 ("echo done"))
      = [("pid=$(cat ").toList ++ (hostPidFile ("/p") ("hostA") 3).toList ++ (")").toList,
         ("pkill -P $pid").toList,
         ("echo done").toList]
    ∧ interpStop false .top (generate_stop_script ("/p") ("hostA") 3 ("echo done"))
      = [("pkill -f ").toList ++ sqChar :: ("torchrun").toList ++ [sqChar],
         ("echo done").toList] :=
  C6_stop_script ("/p") ("hostA") 3 ("echo done")
    (by decide) (by decide) (by decide) (by decide) (by decide) (by decide)
